import Mathlib

/-!
# Verification of the Tides 2 per-sample synthesis engine

Shallow embedding of the self-contained engine in `src/tides.cpp` (the
second revision: `step`, its helper transforms, `construct` and
`parameterChanged`).  `float` arithmetic is idealised as exact rational
arithmetic (`ℚ`); the frequency-resolution chain (`expf` based) is
abstracted as the per-sample phase increment `phaseInc`, an arbitrary
positive rational input, matching `cvFreq * inv_sample_rate` in the source.
The fixed-bound channel loops (`for ch = 0..3`) are unrolled; the
`while (p >= 1) p -= 1` wrap loops are expressed through the fractional
part, which is what they compute for the non-negative values that occur.
-/

set_option autoImplicit false

/-- Ramp mode enum (`RampMode` in the source): `RAMP_AD`, `RAMP_CYCLE`, `RAMP_AR`. -/
inductive RampMode where
  | AD
  | Cycle
  | AR
deriving DecidableEq

/-- Output mode enum (`OutputMode` in the source). -/
inductive OutputMode where
  | Gates
  | Amplitude
  | SlopePhase
  | Frequency
deriving DecidableEq

/-- `clamp` from the source: clamp `x` into `[lo, hi]`. -/
def clamp (x lo hi : ℚ) : ℚ :=
  if x < lo then lo else if x > hi then hi else x

/-- `smoothParam` from the source: one-pole lowpass toward `target`. -/
def smoothParam (current target coeff : ℚ) : ℚ :=
  current + coeff * (target - current)

/-- `applySlope` from the source: asymmetric slope applied to a ramp. -/
def applySlope (phase slope : ℚ) : ℚ :=
  let pw := clamp slope (1/1000) (999/1000)
  if phase < pw then phase / pw else 1 - (phase - pw) / (1 - pw)

/-- `applyShape` from the source: waveshaping by the shape parameter. -/
def applyShape (x shape : ℚ) : ℚ :=
  if shape < 1/2 then
    let amount := 1 - shape * 2
    let curved := x * x * x
    x + amount * (curved - x)
  else
    let amount := (shape - 1/2) * 2
    let curved := 1 - (1 - x) * (1 - x) * (1 - x)
    x + amount * (curved - x)

/-- One iteration of the wavefold reflection loop body in `applySmoothness`:
`if (folded > 1) folded = 2 - folded; if (folded < -1) folded = -2 - folded;`. -/
def foldStep (v : ℚ) : ℚ :=
  let v1 := if 1 < v then 2 - v else v
  if v1 < -1 then -2 - v1 else v1

/-- The wavefold reflection `while` loop of `applySmoothness`, with explicit
fuel (the loop guard is `folded > 1 || folded < -1`). -/
def foldLoop : ℕ → ℚ → ℚ
  | 0, v => v
  | n + 1, v => if 1 < v ∨ v < -1 then foldLoop n (foldStep v) else v

/-- `applySmoothness` from the source: below 1/2 a one-pole lowpass on the
per-channel state, at or above 1/2 a wavefolder.  Returns the output value
together with the (possibly updated) lowpass state that the source passes
by reference.  Fuel 100 for the reflection loop; the termination theorem
below shows a single iteration already suffices on the reachable inputs. -/
def applySmoothness (x smoothness lpState : ℚ) : ℚ × ℚ :=
  if smoothness < 1/2 then
    let cutoff := smoothness * 2
    let coeff := 1/100 + cutoff * (49/100)
    let s := lpState + coeff * (x - lpState)
    (s, s)
  else
    let foldAmount := (smoothness - 1/2) * 2
    if foldAmount > 0 then
      let gain := 1 + foldAmount * 3
      (foldLoop 100 (x * gain), lpState)
    else
      (x, lpState)

/-- Output value of one `applySmoothness` call. -/
def lpVal (x smoothness lpState : ℚ) : ℚ := (applySmoothness x smoothness lpState).1

/-- Lowpass state after one `applySmoothness` call. -/
def lpAfter (x smoothness lpState : ℚ) : ℚ := (applySmoothness x smoothness lpState).2

/-- The `while (p >= 1.0f) p -= 1.0f;` wrap loop: identity below 1,
fractional part at or above 1 (each pass subtracts exactly 1). -/
def wrapPhase (x : ℚ) : ℚ :=
  if x < 1 then x else Int.fract x

/-- The DTC state struct `_TidesDTC` of the source.  The four lowpass
states are kept here as well: in the source they are a function-static
array in `step` (zero-initialised), flagged by its own documentation as
state that should live in the per-instance struct. -/
structure DTC where
  phase0 : ℚ
  phase1 : ℚ
  phase2 : ℚ
  phase3 : ℚ
  gateHigh : Bool
  prevGateHigh : Bool
  envelopeRunning : Bool
  envelopePhase : ℚ
  smoothFreq : ℚ
  smoothShape : ℚ
  smoothSlope : ℚ
  smoothSmoothness : ℚ
  smoothShift : ℚ
  lp0 : ℚ
  lp1 : ℚ
  lp2 : ℚ
  lp3 : ℚ
deriving DecidableEq

/-- Per-sample inputs to the loop body of `step`: trigger level (`none`
when the trigger bus is not connected), optional CV streams with their
attenuverters (already divided by 100), the phase increment
`cvFreq * inv_sample_rate`, and the normalised knob targets. -/
structure SampleIn where
  trig : Option ℚ
  shapeCV : Option ℚ
  slopeCV : Option ℚ
  smoothCV : Option ℚ
  shiftCV : Option ℚ
  shapeAtten : ℚ
  slopeAtten : ℚ
  smoothAtten : ℚ
  shiftAtten : ℚ
  phaseInc : ℚ
  targetShape : ℚ
  targetSlope : ℚ
  targetSmoothness : ℚ
  targetShift : ℚ
deriving DecidableEq

/-- The fixed smoothing coefficient (`smoothCoeff = 0.005f`). -/
def smoothCoeff : ℚ := 1/200

/-- The four parameter-smoothing updates at the top of the sample loop. -/
def smoothedDTC (inp : SampleIn) (d : DTC) : DTC :=
  { d with
    smoothShape := smoothParam d.smoothShape inp.targetShape smoothCoeff
    smoothSlope := smoothParam d.smoothSlope inp.targetSlope smoothCoeff
    smoothSmoothness := smoothParam d.smoothSmoothness inp.targetSmoothness smoothCoeff
    smoothShift := smoothParam d.smoothShift inp.targetShift smoothCoeff }

/-- CV modulation of a smoothed parameter:
`clamp(smoothed + cv * 0.1 * atten, 0, 1)` when the CV bus is connected. -/
def modulated (smoothed : ℚ) (cv : Option ℚ) (atten : ℚ) : ℚ :=
  match cv with
  | none => smoothed
  | some v => clamp (smoothed + v * (1/10) * atten) 0 1

/-- Effective shape value used by the current sample. -/
def effShape (inp : SampleIn) (d : DTC) : ℚ :=
  modulated (smoothParam d.smoothShape inp.targetShape smoothCoeff) inp.shapeCV inp.shapeAtten

/-- Effective slope value used by the current sample. -/
def effSlope (inp : SampleIn) (d : DTC) : ℚ :=
  modulated (smoothParam d.smoothSlope inp.targetSlope smoothCoeff) inp.slopeCV inp.slopeAtten

/-- Effective smoothness value used by the current sample. -/
def effSmoothness (inp : SampleIn) (d : DTC) : ℚ :=
  modulated (smoothParam d.smoothSmoothness inp.targetSmoothness smoothCoeff) inp.smoothCV inp.smoothAtten

/-- Effective shift value used by the current sample. -/
def effShift (inp : SampleIn) (d : DTC) : ℚ :=
  modulated (smoothParam d.smoothShift inp.targetShift smoothCoeff) inp.shiftCV inp.shiftAtten

/-- Gate level detection: `trigIn[i] > 1.0f` when connected, otherwise low. -/
def gateOf (inp : SampleIn) : Bool :=
  match inp.trig with
  | none => false
  | some l => decide (1 < l)

/-- Rising-edge detection: `gate && !dtc->prev_gate_high` (false when the
trigger bus is not connected, since `rising` is only assigned then). -/
def risingOf (inp : SampleIn) (d : DTC) : Bool :=
  gateOf inp && !d.prevGateHigh

/-- The `RAMP_AD` case of the phase update switch. -/
def updatePhaseAD (rising : Bool) (inc p : ℚ) (run : Bool) : ℚ × Bool :=
  let p := if rising then 0 else p
  let run := rising || run
  if run then
    let p := p + inc
    if p ≥ 1 then (1, false) else (p, true)
  else
    (p, run)

/-- The `RAMP_CYCLE` case of the phase update switch. -/
def updatePhaseCycle (rising : Bool) (inc p : ℚ) : ℚ :=
  wrapPhase ((if rising then 0 else p) + inc)

/-- The `RAMP_AR` case of the phase update switch. -/
def updatePhaseAR (trigConnected gate : Bool) (inc slope p : ℚ) : ℚ :=
  if gate || !trigConnected then
    if !trigConnected then
      wrapPhase (p + inc)
    else
      let p := p + inc / clamp slope (1/100) (99/100)
      if p > 1/2 then 1/2 else p
  else
    let p := p + inc / clamp (1 - slope) (1/100) (99/100)
    if p > 1 then 1 else p

/-- The full ramp-mode phase/envelope update for `phase[0]`. -/
def phase0Run (rm : RampMode) (inp : SampleIn) (d : DTC) : ℚ × Bool :=
  match rm with
  | .AD => updatePhaseAD (risingOf inp d) inp.phaseInc d.phase0 d.envelopeRunning
  | .Cycle => (updatePhaseCycle (risingOf inp d) inp.phaseInc d.phase0, d.envelopeRunning)
  | .AR => (updatePhaseAR inp.trig.isSome (gateOf inp) inp.phaseInc (effSlope inp d) d.phase0,
            d.envelopeRunning)

/-- The AR-mode raw-phase-to-ramp mapping: rise on `[0, 1/2]`, fall after. -/
def arRamp (p : ℚ) : ℚ :=
  if p ≤ 1/2 then p * 2 else 1 - (p - 1/2) * 2

/-- Raw phase to ramp: AR mode uses `arRamp`, AD/Cycle use `applySlope`. -/
def rampOf (rm : RampMode) (p slope : ℚ) : ℚ :=
  match rm with
  | .AR => arRamp p
  | _ => applySlope p slope

/-- The shared shaped value `applyShape(ramp, shape)` computed before the
output-mode dispatch. -/
def sharedShaped (rm : RampMode) (inp : SampleIn) (d : DTC) : ℚ :=
  applyShape (rampOf rm (phase0Run rm inp d).1 (effSlope inp d)) (effShape inp d)

/-- Amplitude-mode channel-1 gain, with `pos = shift * 3`. -/
def gain1 (shift : ℚ) : ℚ := clamp (1 - shift * 3) 0 1

/-- Amplitude-mode channel-2 gain. -/
def gain2 (shift : ℚ) : ℚ := clamp (1 - |shift * 3 - 1|) 0 1

/-- Amplitude-mode channel-3 gain. -/
def gain3 (shift : ℚ) : ℚ := clamp (1 - |shift * 3 - 2|) 0 1

/-- Amplitude-mode channel-4 gain. -/
def gain4 (shift : ℚ) : ℚ := clamp (shift * 3 - 2) 0 1

/-- SlopePhase-mode channel phase: `wrap(rawPhase + ch * shift * 0.25)`. -/
def spOffsetPhase (rm : RampMode) (inp : SampleIn) (d : DTC) (ch : ℕ) : ℚ :=
  wrapPhase ((phase0Run rm inp d).1 + (ch : ℚ) * effShift inp d * (1/4))

/-- SlopePhase-mode per-channel shaped value before smoothness. -/
def spShaped (rm : RampMode) (inp : SampleIn) (d : DTC) (ch : ℕ) : ℚ :=
  applyShape (applySlope (spOffsetPhase rm inp d ch) (effSlope inp d)) (effShape inp d)

/-- C float-to-int conversion: truncation toward zero. -/
def truncz (q : ℚ) : ℤ :=
  if 0 ≤ q then ⌊q⌋ else ⌈q⌉

/-- The integer clamp `clamp(ratioSet, 0, 3)` applied to the ratio-set index. -/
def intClamp (n : ℤ) : ℤ :=
  if n < 0 then 0 else if n > 3 then 3 else n

/-- The four fixed frequency-ratio tables (`ratios[4][4]` in the source). -/
def ratioAt (s : ℤ) (ch : ℕ) : ℚ :=
  if s ≤ 0 then [1, 1/2, 1/4, 1/8].getD ch 0
  else if s = 1 then [1, 3/4, 1/2, 1/4].getD ch 0
  else if s = 2 then [1, 667/1000, 1/2, 333/1000].getD ch 0
  else [(1 : ℚ), 2, 3, 4].getD ch 0

/-- Ratio-set selection: `(int)(shift * 3.99f)` clamped to `[0, 3]`. -/
def ratioSetOf (shift : ℚ) : ℤ :=
  intClamp (truncz (shift * (399/100)))

/-- Frequency-mode per-channel phase update: reset on rising edge, advance
by `phaseInc * ratio`, wrap. -/
def freqChannelPhase (rising : Bool) (inc ratio p : ℚ) : ℚ :=
  wrapPhase ((if rising then 0 else p) + inc * ratio)

/-- Frequency-mode phase of channel `ch` after the frequency stage; channel 0
starts from the value the ramp stage already produced this sample. -/
def freqPhaseCh (rm : RampMode) (inp : SampleIn) (d : DTC) (ch : ℕ) : ℚ :=
  freqChannelPhase (risingOf inp d) inp.phaseInc (ratioAt (ratioSetOf (effShift inp d)) ch)
    (match ch with
     | 0 => (phase0Run rm inp d).1
     | 1 => d.phase1
     | 2 => d.phase2
     | _ => d.phase3)

/-- Frequency-mode per-channel shaped value before smoothness. -/
def freqShaped (rm : RampMode) (inp : SampleIn) (d : DTC) (ch : ℕ) : ℚ :=
  applyShape (applySlope (freqPhaseCh rm inp d ch) (effSlope inp d)) (effShape inp d)

/-- Output scaling: bipolar ±5 in Cycle mode, unipolar 0–8 otherwise. -/
def scaleOut (rm : RampMode) (pr : ℚ) : ℚ :=
  match rm with
  | .Cycle => (pr * 2 - 1) * 5
  | _ => pr * 8

/-- Result of one sample of `step`: the new DTC state and the four
channel values (before the add-vs-replace bus write, which is out of scope). -/
structure StepOut where
  dtc : DTC
  out1 : ℚ
  out2 : ℚ
  out3 : ℚ
  out4 : ℚ

/-- One iteration of the per-sample loop body of `step`: parameter
smoothing, gate/edge detection, ramp-mode phase update, the shared
slope→shape→smoothness chain, and the output-mode dispatch. -/
def stepSample (rm : RampMode) (om : OutputMode) (inp : SampleIn) (d0 : DTC) : StepOut :=
  let slope := effSlope inp d0
  let smoothness := effSmoothness inp d0
  let shift := effShift inp d0
  let gate := gateOf inp
  let inc := inp.phaseInc
  let d1 := smoothedDTC inp d0
  let d2 := match inp.trig with
            | none => d1
            | some _ => { d1 with prevGateHigh := gate }
  let p0 := (phase0Run rm inp d0).1
  let run := (phase0Run rm inp d0).2
  let rawPhase := p0
  let ramp := rampOf rm rawPhase slope
  let shaped := sharedShaped rm inp d0
  let processed := lpVal shaped smoothness d0.lp0
  let d3 := { d2 with phase0 := p0, envelopeRunning := run,
                      lp0 := lpAfter shaped smoothness d0.lp0 }
  match om with
  | .Gates =>
      let level := shift * 2 - 1
      let out1Val :=
        match rm with
        | .Cycle =>
            let b := (processed * 2 - 1) * 5 * |level|
            if level < 0 then -b else b
        | _ => processed * 8 * level
      let out2Val :=
        match rm with
        | .Cycle => (ramp * 2 - 1) * 5
        | _ => ramp * 8
      let out3Val : ℚ :=
        match rm with
        | .AR => if rawPhase ≥ 1/2 then 8 else 0
        | _ => if rawPhase ≥ slope then 8 else 0
      let out4Val : ℚ :=
        match rm with
        | .Cycle => if rawPhase < inc * 2 then 8 else 0
        | _ => if rawPhase ≥ 999/1000 then 8 else 0
      ⟨d3, out1Val, out2Val, out3Val, out4Val⟩
  | .Amplitude =>
      let signal :=
        match rm with
        | .Cycle => (processed * 2 - 1) * 5
        | _ => processed * 8
      ⟨d3, signal * gain1 shift, signal * gain2 shift, signal * gain3 shift, signal * gain4 shift⟩
  | .SlopePhase =>
      let s0 := spShaped rm inp d0 0
      let s1 := spShaped rm inp d0 1
      let s2 := spShaped rm inp d0 2
      let s3 := spShaped rm inp d0 3
      ⟨{ d3 with lp0 := lpAfter s0 smoothness d3.lp0
                 lp1 := lpAfter s1 smoothness d3.lp1
                 lp2 := lpAfter s2 smoothness d3.lp2
                 lp3 := lpAfter s3 smoothness d3.lp3 },
        scaleOut rm (lpVal s0 smoothness d3.lp0),
        scaleOut rm (lpVal s1 smoothness d3.lp1),
        scaleOut rm (lpVal s2 smoothness d3.lp2),
        scaleOut rm (lpVal s3 smoothness d3.lp3)⟩
  | .Frequency =>
      let q0 := freqPhaseCh rm inp d0 0
      let q1 := freqPhaseCh rm inp d0 1
      let q2 := freqPhaseCh rm inp d0 2
      let q3 := freqPhaseCh rm inp d0 3
      let f0 := freqShaped rm inp d0 0
      let f1 := freqShaped rm inp d0 1
      let f2 := freqShaped rm inp d0 2
      let f3 := freqShaped rm inp d0 3
      ⟨{ d3 with phase0 := q0, phase1 := q1, phase2 := q2, phase3 := q3,
                 lp0 := lpAfter f0 smoothness d3.lp0
                 lp1 := lpAfter f1 smoothness d3.lp1
                 lp2 := lpAfter f2 smoothness d3.lp2
                 lp3 := lpAfter f3 smoothness d3.lp3 },
        scaleOut rm (lpVal f0 smoothness d3.lp0),
        scaleOut rm (lpVal f1 smoothness d3.lp1),
        scaleOut rm (lpVal f2 smoothness d3.lp2),
        scaleOut rm (lpVal f3 smoothness d3.lp3)⟩

/-- Iterated per-sample steps over a list of sample inputs. -/
def stepTrace (rm : RampMode) (om : OutputMode) (l : List SampleIn) (d : DTC) : DTC :=
  l.foldl (fun d inp => (stepSample rm om inp d).dtc) d

/-- The state `construct` produces: `memset(dtc, 0, ...)` followed by
setting the four smoothed parameters to 0.5. -/
def construct0 : DTC :=
  { phase0 := 0, phase1 := 0, phase2 := 0, phase3 := 0,
    gateHigh := false, prevGateHigh := false,
    envelopeRunning := false, envelopePhase := 0,
    smoothFreq := 0, smoothShape := 1/2, smoothSlope := 1/2,
    smoothSmoothness := 1/2, smoothShift := 1/2,
    lp0 := 0, lp1 := 0, lp2 := 0, lp3 := 0 }

/-- The `parameterChanged` callback of the source: its body is empty, so it
is the identity on the engine state. -/
def parameterChanged (d : DTC) : DTC := d

/-- The state invariant of the specification: the four phases and the four
smoothed parameters stay in `[0, 1]`. -/
def InvS (d : DTC) : Prop :=
  (0 ≤ d.phase0 ∧ d.phase0 ≤ 1) ∧ (0 ≤ d.phase1 ∧ d.phase1 ≤ 1) ∧
  (0 ≤ d.phase2 ∧ d.phase2 ≤ 1) ∧ (0 ≤ d.phase3 ∧ d.phase3 ≤ 1) ∧
  (0 ≤ d.smoothShape ∧ d.smoothShape ≤ 1) ∧ (0 ≤ d.smoothSlope ∧ d.smoothSlope ≤ 1) ∧
  (0 ≤ d.smoothSmoothness ∧ d.smoothSmoothness ≤ 1) ∧ (0 ≤ d.smoothShift ∧ d.smoothShift ≤ 1)

instance (d : DTC) : Decidable (InvS d) := by
  unfold InvS; infer_instance

/-- A representative sample input: nothing connected, all knobs at their
defaults (50%), attenuverters at 100%, increment 1/100 cycle per sample. -/
def baseIn : SampleIn :=
  { trig := none, shapeCV := none, slopeCV := none, smoothCV := none, shiftCV := none,
    shapeAtten := 1, slopeAtten := 1, smoothAtten := 1, shiftAtten := 1,
    phaseInc := 1/100,
    targetShape := 1/2, targetSlope := 1/2, targetSmoothness := 1/2, targetShift := 1/2 }

/-- `baseIn` with a different phase increment. -/
def inInc (i : ℚ) : SampleIn := { baseIn with phaseInc := i }

/-- `baseIn` with the trigger bus connected at level `l` and increment `i`. -/
def inTrig (l i : ℚ) : SampleIn := { baseIn with trig := some l, phaseInc := i }

/-- The initial state with `phase[0]` moved to `q`. -/
def stPh (q : ℚ) : DTC := { construct0 with phase0 := q }

/-! ## General lemmas about the helper transforms -/

theorem clamp_mem (x : ℚ) {lo hi : ℚ} (h : lo ≤ hi) :
    lo ≤ clamp x lo hi ∧ clamp x lo hi ≤ hi := by
  unfold clamp
  split_ifs with h1 h2
  · exact ⟨le_refl lo, h⟩
  · exact ⟨h, le_refl hi⟩
  · exact ⟨not_lt.mp h1, not_lt.mp h2⟩

theorem wrapPhase_lt_one (x : ℚ) : wrapPhase x < 1 := by
  unfold wrapPhase
  split_ifs with h
  · exact h
  · exact Int.fract_lt_one x

theorem wrapPhase_nonneg {x : ℚ} (h : 0 ≤ x) : 0 ≤ wrapPhase x := by
  unfold wrapPhase
  split_ifs
  · exact h
  · exact Int.fract_nonneg x

theorem wrapPhase_of_lt {x : ℚ} (h : x < 1) : wrapPhase x = x := if_pos h

theorem smoothParam_mem {x t : ℚ} (hx0 : 0 ≤ x) (hx1 : x ≤ 1) (ht0 : 0 ≤ t) (ht1 : t ≤ 1) :
    0 ≤ smoothParam x t smoothCoeff ∧ smoothParam x t smoothCoeff ≤ 1 := by
  unfold smoothParam smoothCoeff
  constructor <;> nlinarith

theorem updatePhaseAD_false_false {inc p : ℚ} : updatePhaseAD false inc p false = (p, false) := rfl

theorem updatePhaseAD_advance (rising : Bool) (run : Bool) {inc p : ℚ}
    (h : rising = true ∨ run = true) :
    updatePhaseAD rising inc p run =
      if (if rising then 0 else p) + inc ≥ 1 then (1, false)
      else ((if rising then 0 else p) + inc, true) := by
  cases rising <;> cases run <;>
    first
      | rfl
      | (rcases h with h | h <;> simp at h)

theorem updatePhaseAD_mem (rising run : Bool) {inc p : ℚ}
    (hp0 : 0 ≤ p) (hp1 : p ≤ 1) (hinc : 0 ≤ inc) :
    0 ≤ (updatePhaseAD rising inc p run).1 ∧ (updatePhaseAD rising inc p run).1 ≤ 1 := by
  by_cases h : rising = true ∨ run = true
  · rw [updatePhaseAD_advance rising run h]
    have hq0 : 0 ≤ (if rising = true then (0:ℚ) else p) := by split_ifs <;> simp [hp0]
    set q := (if rising = true then (0:ℚ) else p) with hqdef
    split_ifs with h1
    · norm_num
    · push_neg at h1
      show 0 ≤ q + inc ∧ q + inc ≤ 1
      constructor <;> linarith
  · push_neg at h
    obtain ⟨h1, h2⟩ := h
    cases rising
    · cases run
      · rw [updatePhaseAD_false_false]
        exact ⟨hp0, hp1⟩
      · exact absurd rfl h2
    · exact absurd rfl h1

theorem updatePhaseAD_run_lt (rising run : Bool) {inc p : ℚ} :
    (updatePhaseAD rising inc p run).2 = true → (updatePhaseAD rising inc p run).1 < 1 := by
  intro hr
  by_cases h : rising = true ∨ run = true
  · rw [updatePhaseAD_advance rising run h] at hr ⊢
    set q := (if rising = true then (0:ℚ) else p) with hqdef
    by_cases h1 : q + inc ≥ 1
    · rw [if_pos h1] at hr
      simp at hr
    · rw [if_neg h1]
      push_neg at h1
      show q + inc < 1
      exact h1
  · push_neg at h
    obtain ⟨h1, h2⟩ := h
    cases rising
    · cases run
      · rw [updatePhaseAD_false_false] at hr
        simp at hr
      · exact absurd rfl h2
    · exact absurd rfl h1

theorem updatePhaseCycle_mem (rising : Bool) {inc p : ℚ} (hp0 : 0 ≤ p) (hinc : 0 ≤ inc) :
    0 ≤ updatePhaseCycle rising inc p ∧ updatePhaseCycle rising inc p < 1 := by
  unfold updatePhaseCycle
  refine ⟨wrapPhase_nonneg ?_, wrapPhase_lt_one _⟩
  split_ifs <;> linarith

theorem updatePhaseAR_noTrig (gate : Bool) (inc slope p : ℚ) :
    updatePhaseAR false gate inc slope p = wrapPhase (p + inc) := by
  cases gate <;> rfl

theorem updatePhaseAR_gateHigh (inc slope p : ℚ) :
    updatePhaseAR true true inc slope p =
      if p + inc / clamp slope (1/100) (99/100) > 1/2 then 1/2
      else p + inc / clamp slope (1/100) (99/100) := rfl

theorem updatePhaseAR_gateLow (inc slope p : ℚ) :
    updatePhaseAR true false inc slope p =
      if p + inc / clamp (1 - slope) (1/100) (99/100) > 1 then 1
      else p + inc / clamp (1 - slope) (1/100) (99/100) := rfl

theorem updatePhaseAR_mem (tc gate : Bool) {inc slope p : ℚ}
    (hp0 : 0 ≤ p) (_hp1 : p ≤ 1) (hinc : 0 < inc) :
    0 ≤ updatePhaseAR tc gate inc slope p ∧ updatePhaseAR tc gate inc slope p ≤ 1 := by
  have hc1 : (1:ℚ)/100 ≤ clamp slope (1/100) (99/100) ∧ clamp slope (1/100) (99/100) ≤ 99/100 :=
    clamp_mem slope (by norm_num)
  have hc2 : (1:ℚ)/100 ≤ clamp (1 - slope) (1/100) (99/100) ∧
      clamp (1 - slope) (1/100) (99/100) ≤ 99/100 := clamp_mem (1 - slope) (by norm_num)
  have hd1 : 0 < inc / clamp slope (1/100) (99/100) := div_pos hinc (by linarith [hc1.1])
  have hd2 : 0 < inc / clamp (1 - slope) (1/100) (99/100) := div_pos hinc (by linarith [hc2.1])
  cases tc
  · rw [updatePhaseAR_noTrig]
    exact ⟨wrapPhase_nonneg (by linarith), le_of_lt (wrapPhase_lt_one _)⟩
  · cases gate
    · rw [updatePhaseAR_gateLow]
      split_ifs with h
      · norm_num
      · push_neg at h
        constructor <;> linarith
    · rw [updatePhaseAR_gateHigh]
      split_ifs with h
      · norm_num
      · push_neg at h
        constructor <;> linarith

theorem ratioAt_nonneg (s : ℤ) (ch : ℕ) : 0 ≤ ratioAt s ch := by
  unfold ratioAt
  split_ifs <;> rcases ch with _ | _ | _ | _ | ch <;>
    norm_num [List.getD_cons_zero, List.getD_cons_succ, List.getD_nil]

theorem ratioAt_zero (s : ℤ) : ratioAt s 0 = 1 := by
  unfold ratioAt
  split_ifs <;> rfl

theorem freqChannelPhase_mem (rising : Bool) {inc ratio p : ℚ}
    (hp0 : 0 ≤ p) (hinc : 0 ≤ inc) (hr : 0 ≤ ratio) :
    0 ≤ freqChannelPhase rising inc ratio p ∧ freqChannelPhase rising inc ratio p < 1 := by
  unfold freqChannelPhase
  refine ⟨wrapPhase_nonneg ?_, wrapPhase_lt_one _⟩
  have := mul_nonneg hinc hr
  split_ifs <;> linarith

theorem foldLoop_of_mem (n : ℕ) {v : ℚ} (h1 : -1 ≤ v) (h2 : v ≤ 1) : foldLoop n v = v := by
  cases n with
  | zero => rfl
  | succ n =>
      unfold foldLoop
      rw [if_neg]
      rintro (h | h)
      · exact absurd h2 (not_le.mpr h)
      · exact absurd h1 (not_le.mpr h)

theorem foldStep_of_gt {v : ℚ} (h1 : 1 < v) :
    foldStep v = if 2 - v < -1 then -2 - (2 - v) else 2 - v := by
  unfold foldStep
  rw [if_pos h1]

theorem foldStep_mem {v : ℚ} (h1 : 1 < v) (h2 : v ≤ 4) :
    -1 ≤ foldStep v ∧ foldStep v ≤ 1 := by
  rw [foldStep_of_gt h1]
  split_ifs with h3 <;> constructor <;> linarith

theorem foldLoop_stable (n : ℕ) {v : ℚ} (h0 : 0 ≤ v) (h4 : v ≤ 4) :
    foldLoop (n + 1) v = foldLoop 1 v := by
  by_cases hb : v ≤ 1
  · rw [foldLoop_of_mem _ (by linarith) hb, foldLoop_of_mem _ (by linarith) hb]
  · push_neg at hb
    have hm := foldStep_mem hb h4
    show (if 1 < v ∨ v < -1 then foldLoop n (foldStep v) else v) =
      (if 1 < v ∨ v < -1 then foldLoop 0 (foldStep v) else v)
    rw [if_pos (Or.inl hb), if_pos (Or.inl hb),
      foldLoop_of_mem _ hm.1 hm.2, foldLoop_of_mem _ hm.1 hm.2]

/-! ## Field characterisations of one `stepSample` -/

theorem stepSample_phase0 (rm : RampMode) (om : OutputMode) (inp : SampleIn) (d : DTC)
    (h : om ≠ .Frequency) :
    (stepSample rm om inp d).dtc.phase0 = (phase0Run rm inp d).1 := by
  cases om
  · rfl
  · rfl
  · rfl
  · exact absurd rfl h

theorem stepSample_phase0_freq (rm : RampMode) (inp : SampleIn) (d : DTC) :
    (stepSample rm .Frequency inp d).dtc.phase0 = freqPhaseCh rm inp d 0 := rfl

theorem stepSample_env (rm : RampMode) (om : OutputMode) (inp : SampleIn) (d : DTC) :
    (stepSample rm om inp d).dtc.envelopeRunning = (phase0Run rm inp d).2 := by
  cases om <;> rfl

theorem stepSample_phase123 (rm : RampMode) (om : OutputMode) (inp : SampleIn) (d : DTC)
    (h : om ≠ .Frequency) :
    (stepSample rm om inp d).dtc.phase1 = d.phase1 ∧
    (stepSample rm om inp d).dtc.phase2 = d.phase2 ∧
    (stepSample rm om inp d).dtc.phase3 = d.phase3 := by
  cases om
  · obtain ⟨t, c1, c2, c3, c4, a1, a2, a3, a4, pi, t1, t2, t3, t4⟩ := inp
    cases t <;> exact ⟨rfl, rfl, rfl⟩
  · obtain ⟨t, c1, c2, c3, c4, a1, a2, a3, a4, pi, t1, t2, t3, t4⟩ := inp
    cases t <;> exact ⟨rfl, rfl, rfl⟩
  · obtain ⟨t, c1, c2, c3, c4, a1, a2, a3, a4, pi, t1, t2, t3, t4⟩ := inp
    cases t <;> exact ⟨rfl, rfl, rfl⟩
  · exact absurd rfl h

theorem stepSample_phase123_freq (rm : RampMode) (inp : SampleIn) (d : DTC) :
    (stepSample rm .Frequency inp d).dtc.phase1 = freqPhaseCh rm inp d 1 ∧
    (stepSample rm .Frequency inp d).dtc.phase2 = freqPhaseCh rm inp d 2 ∧
    (stepSample rm .Frequency inp d).dtc.phase3 = freqPhaseCh rm inp d 3 :=
  ⟨rfl, rfl, rfl⟩

theorem stepSample_smooth (rm : RampMode) (om : OutputMode) (inp : SampleIn) (d : DTC) :
    (stepSample rm om inp d).dtc.smoothShape = smoothParam d.smoothShape inp.targetShape smoothCoeff ∧
    (stepSample rm om inp d).dtc.smoothSlope = smoothParam d.smoothSlope inp.targetSlope smoothCoeff ∧
    (stepSample rm om inp d).dtc.smoothSmoothness =
      smoothParam d.smoothSmoothness inp.targetSmoothness smoothCoeff ∧
    (stepSample rm om inp d).dtc.smoothShift = smoothParam d.smoothShift inp.targetShift smoothCoeff := by
  obtain ⟨t, c1, c2, c3, c4, a1, a2, a3, a4, pi, t1, t2, t3, t4⟩ := inp
  cases om <;> cases t <;> exact ⟨rfl, rfl, rfl, rfl⟩

theorem stepSample_lp_gates (rm : RampMode) (inp : SampleIn) (d : DTC) :
    (stepSample rm .Gates inp d).dtc.lp0 =
      lpAfter (sharedShaped rm inp d) (effSmoothness inp d) d.lp0 ∧
    (stepSample rm .Gates inp d).dtc.lp1 = d.lp1 ∧
    (stepSample rm .Gates inp d).dtc.lp2 = d.lp2 ∧
    (stepSample rm .Gates inp d).dtc.lp3 = d.lp3 := by
  obtain ⟨t, c1, c2, c3, c4, a1, a2, a3, a4, pi, t1, t2, t3, t4⟩ := inp
  cases t <;> exact ⟨rfl, rfl, rfl, rfl⟩

theorem stepSample_lp_amplitude (rm : RampMode) (inp : SampleIn) (d : DTC) :
    (stepSample rm .Amplitude inp d).dtc.lp0 =
      lpAfter (sharedShaped rm inp d) (effSmoothness inp d) d.lp0 ∧
    (stepSample rm .Amplitude inp d).dtc.lp1 = d.lp1 ∧
    (stepSample rm .Amplitude inp d).dtc.lp2 = d.lp2 ∧
    (stepSample rm .Amplitude inp d).dtc.lp3 = d.lp3 := by
  obtain ⟨t, c1, c2, c3, c4, a1, a2, a3, a4, pi, t1, t2, t3, t4⟩ := inp
  cases t <;> exact ⟨rfl, rfl, rfl, rfl⟩

theorem stepSample_lp_sp (rm : RampMode) (inp : SampleIn) (d : DTC) :
    (stepSample rm .SlopePhase inp d).dtc.lp0 =
      lpAfter (spShaped rm inp d 0) (effSmoothness inp d)
        (lpAfter (sharedShaped rm inp d) (effSmoothness inp d) d.lp0) ∧
    (stepSample rm .SlopePhase inp d).dtc.lp1 =
      lpAfter (spShaped rm inp d 1) (effSmoothness inp d) d.lp1 ∧
    (stepSample rm .SlopePhase inp d).dtc.lp2 =
      lpAfter (spShaped rm inp d 2) (effSmoothness inp d) d.lp2 ∧
    (stepSample rm .SlopePhase inp d).dtc.lp3 =
      lpAfter (spShaped rm inp d 3) (effSmoothness inp d) d.lp3 := by
  obtain ⟨t, c1, c2, c3, c4, a1, a2, a3, a4, pi, t1, t2, t3, t4⟩ := inp
  cases t <;> exact ⟨rfl, rfl, rfl, rfl⟩

theorem stepSample_lp_freq (rm : RampMode) (inp : SampleIn) (d : DTC) :
    (stepSample rm .Frequency inp d).dtc.lp0 =
      lpAfter (freqShaped rm inp d 0) (effSmoothness inp d)
        (lpAfter (sharedShaped rm inp d) (effSmoothness inp d) d.lp0) ∧
    (stepSample rm .Frequency inp d).dtc.lp1 =
      lpAfter (freqShaped rm inp d 1) (effSmoothness inp d) d.lp1 ∧
    (stepSample rm .Frequency inp d).dtc.lp2 =
      lpAfter (freqShaped rm inp d 2) (effSmoothness inp d) d.lp2 ∧
    (stepSample rm .Frequency inp d).dtc.lp3 =
      lpAfter (freqShaped rm inp d 3) (effSmoothness inp d) d.lp3 := by
  obtain ⟨t, c1, c2, c3, c4, a1, a2, a3, a4, pi, t1, t2, t3, t4⟩ := inp
  cases t <;> exact ⟨rfl, rfl, rfl, rfl⟩

theorem ite_gt_min (x c : ℚ) : (if x > c then c else x) = min x c := by
  split_ifs with h
  · exact (min_eq_right h.le).symm
  · push_neg at h
    exact (min_eq_left h).symm

theorem foldLoop_one_of_gt {v : ℚ} (h : 1 < v) : foldLoop 1 v = foldStep v := by
  unfold foldLoop
  rw [if_pos (Or.inl h)]
  rfl

theorem gateOf_none {inp : SampleIn} (h : inp.trig = none) : gateOf inp = false := by
  unfold gateOf
  rw [h]

theorem risingOf_none {inp : SampleIn} (d : DTC) (h : inp.trig = none) :
    risingOf inp d = false := by
  unfold risingOf
  rw [gateOf_none h, Bool.false_and]

theorem stepTrace_nil (rm : RampMode) (om : OutputMode) (d : DTC) :
    stepTrace rm om [] d = d := rfl

theorem stepTrace_cons (rm : RampMode) (om : OutputMode) (inp : SampleIn) (l : List SampleIn)
    (d : DTC) : stepTrace rm om (inp :: l) d = stepTrace rm om l (stepSample rm om inp d).dtc := rfl

/-! ## Claim theorems -/

/-- C2 counterexample: `parameterChanged` (the callback invoked on an explicit
output-mode parameter change) leaves a non-initial engine state completely
unchanged, so no reset to initial values happens on an output-mode change. -/
theorem C2_counterexample :
    parameterChanged (stPh (3/10)) = stPh (3/10) ∧ stPh (3/10) ≠ construct0 := by
  refine ⟨rfl, fun h => ?_⟩
  have h0 := congrArg DTC.phase0 h
  norm_num [stPh, construct0] at h0

/-- C2 (amended): the engine state is initialised (all fields zero except the
four smoothed parameters at 0.5) only by `construct`; the `parameterChanged`
callback is the identity on the state, so an output-mode change performs no
reset, and no reset happens outside engine initialisation and the per-sample
step. -/
theorem C2_no_reset_on_parameter_change :
    (∀ d : DTC, parameterChanged d = d) ∧
    construct0.phase0 = 0 ∧ construct0.phase1 = 0 ∧ construct0.phase2 = 0 ∧
    construct0.phase3 = 0 ∧ construct0.prevGateHigh = false ∧
    construct0.envelopeRunning = false ∧ construct0.smoothShape = 1/2 ∧
    construct0.smoothSlope = 1/2 ∧ construct0.smoothSmoothness = 1/2 ∧
    construct0.smoothShift = 1/2 :=
  ⟨fun _ => rfl, rfl, rfl, rfl, rfl, rfl, rfl, rfl, rfl, rfl, rfl⟩

/-- C6: for every smoothness in [0,1] and input x in [0,1] the wavefold
reflection loop of `applySmoothness` terminates within a bounded number of
iterations: the pre-fold gain is at most 4, the scaled value is at most 4,
one reflection pass already lands in [-1,1] (so any fuel from 1 up gives the
same value), and `applySmoothness` is total: for smoothness ≥ 1/2 it returns
the single-pass fold result, for smoothness < 1/2 the loop is never entered
and the lowpass branch runs. -/
theorem C6_wavefold_terminates (s x : ℚ) (hs0 : 0 ≤ s) (hs1 : s ≤ 1)
    (hx0 : 0 ≤ x) (hx1 : x ≤ 1) :
    (1/2 ≤ s →
      1 + (s - 1/2) * 2 * 3 ≤ 4 ∧
      x * (1 + (s - 1/2) * 2 * 3) ≤ 4 ∧
      (∀ n : ℕ, foldLoop (n + 1) (x * (1 + (s - 1/2) * 2 * 3)) =
        foldLoop 1 (x * (1 + (s - 1/2) * 2 * 3))) ∧
      (-1 ≤ foldLoop 1 (x * (1 + (s - 1/2) * 2 * 3)) ∧
        foldLoop 1 (x * (1 + (s - 1/2) * 2 * 3)) ≤ 1) ∧
      (∀ lp : ℚ, applySmoothness x s lp =
        (foldLoop 1 (x * (1 + (s - 1/2) * 2 * 3)), lp))) ∧
    (s < 1/2 → ∀ lp : ℚ, applySmoothness x s lp =
      (lp + (1/100 + s * 2 * (49/100)) * (x - lp),
       lp + (1/100 + s * 2 * (49/100)) * (x - lp))) := by
  constructor
  · intro hs
    have hg1 : (1:ℚ) ≤ 1 + (s - 1/2) * 2 * 3 := by linarith
    have hg4 : 1 + (s - 1/2) * 2 * 3 ≤ 4 := by linarith
    have hv0 : 0 ≤ x * (1 + (s - 1/2) * 2 * 3) := mul_nonneg hx0 (by linarith)
    have hv4 : x * (1 + (s - 1/2) * 2 * 3) ≤ 4 := by nlinarith
    have hbounds : -1 ≤ foldLoop 1 (x * (1 + (s - 1/2) * 2 * 3)) ∧
        foldLoop 1 (x * (1 + (s - 1/2) * 2 * 3)) ≤ 1 := by
      by_cases hb : x * (1 + (s - 1/2) * 2 * 3) ≤ 1
      · rw [foldLoop_of_mem 1 (by linarith) hb]
        exact ⟨by linarith, hb⟩
      · push_neg at hb
        rw [foldLoop_one_of_gt hb]
        exact foldStep_mem hb hv4
    refine ⟨hg4, hv4, fun n => foldLoop_stable n hv0 hv4, hbounds, fun lp => ?_⟩
    by_cases hfa : (s - 1/2) * 2 > 0
    · have : applySmoothness x s lp =
          (foldLoop 100 (x * (1 + (s - 1/2) * 2 * 3)), lp) := by
        unfold applySmoothness
        rw [if_neg (not_lt.mpr hs), if_pos hfa]
      rw [this]
      have h99 := foldLoop_stable 99 hv0 hv4
      norm_num at h99
      rw [h99]
    · have hs' : s = 1/2 := by
        push_neg at hfa
        linarith
      subst hs'
      have hx : x * (1 + ((1:ℚ)/2 - 1/2) * 2 * 3) = x := by ring
      rw [hx, foldLoop_of_mem 1 (by linarith) hx1]
      unfold applySmoothness
      rw [if_neg (by norm_num), if_neg (by norm_num)]
  · intro hs lp
    unfold applySmoothness
    rw [if_pos hs]

/-- C8: the Amplitude-mode channel gains (with `pos = shift·3`) are
non-negative for every shift in [0,1] and sum to exactly 1 at
shift ∈ {0, 1/3, 2/3, 1}. -/
theorem C8_amplitude_gains :
    (∀ shift : ℚ, 0 ≤ shift → shift ≤ 1 →
      0 ≤ gain1 shift ∧ 0 ≤ gain2 shift ∧ 0 ≤ gain3 shift ∧ 0 ≤ gain4 shift) ∧
    gain1 0 + gain2 0 + gain3 0 + gain4 0 = 1 ∧
    gain1 (1/3) + gain2 (1/3) + gain3 (1/3) + gain4 (1/3) = 1 ∧
    gain1 (2/3) + gain2 (2/3) + gain3 (2/3) + gain4 (2/3) = 1 ∧
    gain1 1 + gain2 1 + gain3 1 + gain4 1 = 1 := by
  refine ⟨fun shift h0 h1 => ⟨(clamp_mem _ (by norm_num)).1, (clamp_mem _ (by norm_num)).1,
    (clamp_mem _ (by norm_num)).1, (clamp_mem _ (by norm_num)).1⟩, ?_, ?_, ?_, ?_⟩ <;>
    norm_num [gain1, gain2, gain3, gain4, clamp, abs]

theorem C8_amplitude_gains_witness :
    0 ≤ gain1 (1/2) ∧ 0 ≤ gain2 (1/2) ∧ 0 ≤ gain3 (1/2) ∧ 0 ≤ gain4 (1/2) :=
  C8_amplitude_gains.1 (1/2) (by norm_num) (by norm_num)

/-- C9: in SlopePhase and Frequency output modes the channel-0 lowpass state
is threaded through `applySmoothness` twice in one sample (once by the shared
shaping path, once by the channel-0 rendering, the second reading the result
of the first), while channels 1–3 are threaded exactly once. -/
theorem C9_double_lowpass_update (rm : RampMode) (inp : SampleIn) (d : DTC) :
    ((stepSample rm .SlopePhase inp d).dtc.lp0 =
        lpAfter (spShaped rm inp d 0) (effSmoothness inp d)
          (lpAfter (sharedShaped rm inp d) (effSmoothness inp d) d.lp0) ∧
      (stepSample rm .SlopePhase inp d).dtc.lp1 =
        lpAfter (spShaped rm inp d 1) (effSmoothness inp d) d.lp1 ∧
      (stepSample rm .SlopePhase inp d).dtc.lp2 =
        lpAfter (spShaped rm inp d 2) (effSmoothness inp d) d.lp2 ∧
      (stepSample rm .SlopePhase inp d).dtc.lp3 =
        lpAfter (spShaped rm inp d 3) (effSmoothness inp d) d.lp3) ∧
    ((stepSample rm .Frequency inp d).dtc.lp0 =
        lpAfter (freqShaped rm inp d 0) (effSmoothness inp d)
          (lpAfter (sharedShaped rm inp d) (effSmoothness inp d) d.lp0) ∧
      (stepSample rm .Frequency inp d).dtc.lp1 =
        lpAfter (freqShaped rm inp d 1) (effSmoothness inp d) d.lp1 ∧
      (stepSample rm .Frequency inp d).dtc.lp2 =
        lpAfter (freqShaped rm inp d 2) (effSmoothness inp d) d.lp2 ∧
      (stepSample rm .Frequency inp d).dtc.lp3 =
        lpAfter (freqShaped rm inp d 3) (effSmoothness inp d) d.lp3) :=
  ⟨stepSample_lp_sp rm inp d, stepSample_lp_freq rm inp d⟩

/-- C10: in Gates and Amplitude output modes a per-sample step leaves
`phase[1..3]` and the channel-1..3 lowpass states unchanged; among the
per-channel signal states only `phase[0]` and the channel-0 lowpass state
are written. -/
theorem C10_gates_amplitude_frame (rm : RampMode) (inp : SampleIn) (d : DTC) :
    ((stepSample rm .Gates inp d).dtc.phase1 = d.phase1 ∧
      (stepSample rm .Gates inp d).dtc.phase2 = d.phase2 ∧
      (stepSample rm .Gates inp d).dtc.phase3 = d.phase3 ∧
      (stepSample rm .Gates inp d).dtc.lp1 = d.lp1 ∧
      (stepSample rm .Gates inp d).dtc.lp2 = d.lp2 ∧
      (stepSample rm .Gates inp d).dtc.lp3 = d.lp3) ∧
    ((stepSample rm .Amplitude inp d).dtc.phase1 = d.phase1 ∧
      (stepSample rm .Amplitude inp d).dtc.phase2 = d.phase2 ∧
      (stepSample rm .Amplitude inp d).dtc.phase3 = d.phase3 ∧
      (stepSample rm .Amplitude inp d).dtc.lp1 = d.lp1 ∧
      (stepSample rm .Amplitude inp d).dtc.lp2 = d.lp2 ∧
      (stepSample rm .Amplitude inp d).dtc.lp3 = d.lp3) := by
  obtain ⟨hg1, hg2, hg3⟩ := stepSample_phase123 rm .Gates inp d (fun h => nomatch h)
  obtain ⟨-, hgl1, hgl2, hgl3⟩ := stepSample_lp_gates rm inp d
  obtain ⟨ha1, ha2, ha3⟩ := stepSample_phase123 rm .Amplitude inp d (fun h => nomatch h)
  obtain ⟨-, hal1, hal2, hal3⟩ := stepSample_lp_amplitude rm inp d
  exact ⟨⟨hg1, hg2, hg3, hgl1, hgl2, hgl3⟩, ⟨ha1, ha2, ha3, hal1, hal2, hal3⟩⟩

theorem C6_wavefold_terminates_witness :
    (1:ℚ) + ((1:ℚ) - 1/2) * 2 * 3 ≤ 4 ∧
    foldLoop 2 ((1:ℚ) * (1 + ((1:ℚ) - 1/2) * 2 * 3)) =
      foldLoop 1 ((1:ℚ) * (1 + ((1:ℚ) - 1/2) * 2 * 3)) := by
  have h := (C6_wavefold_terminates 1 1 (by norm_num) (by norm_num) (by norm_num)
    (by norm_num)).1 (by norm_num)
  exact ⟨h.1, h.2.2.1 1⟩

/-- C1 counterexample: Cycle ramp mode, Frequency output mode, no trigger,
increment 1/100, from the initial state.  Channel 0 ends the sample at
phase 2/100, not at `phase0 + baseIncrement * ratio[0] = 1/100`: the ramp
stage has already advanced `phase[0]` by the base increment before the
Frequency stage advances it again. -/
theorem C1_counterexample :
    (stepSample .Cycle .Frequency baseIn construct0).dtc.phase0 = 1/50 ∧
    construct0.phase0 + baseIn.phaseInc * ratioAt (ratioSetOf (effShift baseIn construct0)) 0
      = 1/100 ∧
    ((1/50 : ℚ) ≠ 1/100) := by
  have heff : effShift baseIn construct0 = 1/2 := by
    norm_num [effShift, modulated, smoothParam, smoothCoeff, baseIn, construct0]
  refine ⟨?_, ?_, by norm_num⟩
  · rw [stepSample_phase0_freq]
    norm_num [freqPhaseCh, freqChannelPhase, risingOf, gateOf, baseIn, construct0, heff,
      ratioSetOf, truncz, intClamp, ratioAt, phase0Run, updatePhaseCycle, wrapPhase]
  · rw [ratioAt_zero]
    norm_num [baseIn, construct0]

theorem freqChannelPhase_rising {inc ratio p : ℚ} :
    freqChannelPhase true inc ratio p = wrapPhase (inc * ratio) := by
  unfold freqChannelPhase
  rw [if_pos rfl, zero_add]

theorem freqChannelPhase_not_rising {inc ratio p : ℚ} :
    freqChannelPhase false inc ratio p = wrapPhase (p + inc * ratio) := by
  unfold freqChannelPhase
  rw [if_neg (by simp)]

theorem freqPhaseCh_def0 (rm : RampMode) (inp : SampleIn) (d : DTC) :
    freqPhaseCh rm inp d 0 = freqChannelPhase (risingOf inp d) inp.phaseInc
      (ratioAt (ratioSetOf (effShift inp d)) 0) (phase0Run rm inp d).1 := rfl

theorem freqPhaseCh_def1 (rm : RampMode) (inp : SampleIn) (d : DTC) :
    freqPhaseCh rm inp d 1 = freqChannelPhase (risingOf inp d) inp.phaseInc
      (ratioAt (ratioSetOf (effShift inp d)) 1) d.phase1 := rfl

theorem freqPhaseCh_def2 (rm : RampMode) (inp : SampleIn) (d : DTC) :
    freqPhaseCh rm inp d 2 = freqChannelPhase (risingOf inp d) inp.phaseInc
      (ratioAt (ratioSetOf (effShift inp d)) 2) d.phase2 := rfl

theorem freqPhaseCh_def3 (rm : RampMode) (inp : SampleIn) (d : DTC) :
    freqPhaseCh rm inp d 3 = freqChannelPhase (risingOf inp d) inp.phaseInc
      (ratioAt (ratioSetOf (effShift inp d)) 3) d.phase3 := rfl

/-- C1 (amended): in Frequency output mode, for every ramp mode: on a rising
trigger edge every channel's accumulator is reset to 0 and then advanced by
exactly `baseIncrement * ratio[channel]` (ratio table `floor(shift*3.99)`
clamped to [0,3], result wrapped modulo 1); with no rising edge channels 1–3
advance by exactly `baseIncrement * ratio[channel]` (wrapped); each channel's
output is its own end-of-sample phase passed independently through the
slope→shape→smoothness chain with its own lowpass state.  However channel 0
is advanced twice per sample — once by the ramp-mode stage and again by the
frequency stage (whose `ratio[·][0]` is always 1) — so in Cycle mode with no
trigger connected channel 0 advances by `2 * baseIncrement` per sample, not
by exactly the base increment. -/
theorem C1_freq_channel_advances (rm : RampMode) (inp : SampleIn) (d : DTC) :
    (risingOf inp d = true →
      (stepSample rm .Frequency inp d).dtc.phase0 =
        wrapPhase (inp.phaseInc * ratioAt (ratioSetOf (effShift inp d)) 0) ∧
      (stepSample rm .Frequency inp d).dtc.phase1 =
        wrapPhase (inp.phaseInc * ratioAt (ratioSetOf (effShift inp d)) 1) ∧
      (stepSample rm .Frequency inp d).dtc.phase2 =
        wrapPhase (inp.phaseInc * ratioAt (ratioSetOf (effShift inp d)) 2) ∧
      (stepSample rm .Frequency inp d).dtc.phase3 =
        wrapPhase (inp.phaseInc * ratioAt (ratioSetOf (effShift inp d)) 3)) ∧
    (risingOf inp d = false →
      (stepSample rm .Frequency inp d).dtc.phase1 =
        wrapPhase (d.phase1 + inp.phaseInc * ratioAt (ratioSetOf (effShift inp d)) 1) ∧
      (stepSample rm .Frequency inp d).dtc.phase2 =
        wrapPhase (d.phase2 + inp.phaseInc * ratioAt (ratioSetOf (effShift inp d)) 2) ∧
      (stepSample rm .Frequency inp d).dtc.phase3 =
        wrapPhase (d.phase3 + inp.phaseInc * ratioAt (ratioSetOf (effShift inp d)) 3) ∧
      (stepSample rm .Frequency inp d).dtc.phase0 =
        wrapPhase ((phase0Run rm inp d).1 + inp.phaseInc)) ∧
    ((stepSample rm .Frequency inp d).out1 =
        scaleOut rm (lpVal
          (applyShape (applySlope ((stepSample rm .Frequency inp d).dtc.phase0)
            (effSlope inp d)) (effShape inp d))
          (effSmoothness inp d)
          (lpAfter (sharedShaped rm inp d) (effSmoothness inp d) d.lp0)) ∧
      (stepSample rm .Frequency inp d).out2 =
        scaleOut rm (lpVal
          (applyShape (applySlope ((stepSample rm .Frequency inp d).dtc.phase1)
            (effSlope inp d)) (effShape inp d))
          (effSmoothness inp d) d.lp1) ∧
      (stepSample rm .Frequency inp d).out3 =
        scaleOut rm (lpVal
          (applyShape (applySlope ((stepSample rm .Frequency inp d).dtc.phase2)
            (effSlope inp d)) (effShape inp d))
          (effSmoothness inp d) d.lp2) ∧
      (stepSample rm .Frequency inp d).out4 =
        scaleOut rm (lpVal
          (applyShape (applySlope ((stepSample rm .Frequency inp d).dtc.phase3)
            (effSlope inp d)) (effShape inp d))
          (effSmoothness inp d) d.lp3)) ∧
    (inp.trig = none → 0 ≤ inp.phaseInc → 0 ≤ d.phase0 →
      d.phase0 + 2 * inp.phaseInc < 1 →
      (stepSample .Cycle .Frequency inp d).dtc.phase0 = d.phase0 + 2 * inp.phaseInc) := by
  obtain ⟨e1, e2, e3⟩ := stepSample_phase123_freq rm inp d
  refine ⟨?_, ?_, ?_, ?_⟩
  · intro hrise
    refine ⟨?_, ?_, ?_, ?_⟩
    · rw [stepSample_phase0_freq, freqPhaseCh_def0, hrise, freqChannelPhase_rising]
    · rw [e1, freqPhaseCh_def1, hrise, freqChannelPhase_rising]
    · rw [e2, freqPhaseCh_def2, hrise, freqChannelPhase_rising]
    · rw [e3, freqPhaseCh_def3, hrise, freqChannelPhase_rising]
  · intro hrise
    refine ⟨?_, ?_, ?_, ?_⟩
    · rw [e1, freqPhaseCh_def1, hrise, freqChannelPhase_not_rising]
    · rw [e2, freqPhaseCh_def2, hrise, freqChannelPhase_not_rising]
    · rw [e3, freqPhaseCh_def3, hrise, freqChannelPhase_not_rising]
    · rw [stepSample_phase0_freq, freqPhaseCh_def0, hrise, freqChannelPhase_not_rising,
        ratioAt_zero, mul_one]
  · obtain ⟨t, c1, c2, c3, c4, a1, a2, a3, a4, pi, t1, t2, t3, t4⟩ := inp
    cases t <;> exact ⟨rfl, rfl, rfl, rfl⟩
  · intro ht hinc hp0 h0b
    have hr : risingOf inp d = false := risingOf_none d ht
    have hp0run : (phase0Run .Cycle inp d).1 = d.phase0 + inp.phaseInc := by
      show updatePhaseCycle (risingOf inp d) inp.phaseInc d.phase0 = _
      rw [hr]
      unfold updatePhaseCycle
      simp only [Bool.false_eq_true, if_false]
      exact wrapPhase_of_lt (by linarith)
    rw [stepSample_phase0_freq, freqPhaseCh_def0, hr, freqChannelPhase_not_rising,
      ratioAt_zero, mul_one, hp0run, wrapPhase_of_lt (by linarith)]
    ring

theorem C1_freq_channel_advances_witness :
    (stepSample .Cycle .Frequency baseIn construct0).dtc.phase0 =
      construct0.phase0 + 2 * baseIn.phaseInc ∧
    (stepSample .Cycle .Frequency (inTrig 2 (1/100)) construct0).dtc.phase1 =
      wrapPhase ((inTrig 2 (1/100)).phaseInc *
        ratioAt (ratioSetOf (effShift (inTrig 2 (1/100)) construct0)) 1) := by
  constructor
  · exact (C1_freq_channel_advances .Cycle baseIn construct0).2.2.2 rfl
      (by norm_num [baseIn]) (by norm_num [construct0]) (by norm_num [baseIn, construct0])
  · exact (((C1_freq_channel_advances .Cycle (inTrig 2 (1/100)) construct0).1
      (by norm_num [risingOf, gateOf, inTrig, baseIn, construct0]))).2.1

/-- C3 counterexample: AttackRelease mode with no trigger connected,
increment 1/500, from phase 999/1000.  The code free-runs like Cycle mode
and wraps the phase to 1/1000 — it does not advance by
`increment / clamp(slope, 0.01, 0.99)` nor clamp at 0.5, and the phase
wraps (decreases) although the claim says this mode never wraps. -/
theorem C3_counterexample :
    (stepSample .AR .Gates (inInc (1/500)) (stPh (999/1000))).dtc.phase0 = 1/1000 ∧
    ((1/1000 : ℚ) < (stPh (999/1000)).phase0) ∧
    ((1/1000 : ℚ) ≠ 1/2) := by
  refine ⟨?_, by norm_num [stPh, construct0], by norm_num⟩
  rw [stepSample_phase0 .AR .Gates _ _ (fun h => nomatch h)]
  show updatePhaseAR false (gateOf (inInc (1/500))) (1/500)
    (effSlope (inInc (1/500)) (stPh (999/1000))) (999/1000) = 1/1000
  rw [updatePhaseAR_noTrig]
  norm_num [wrapPhase, Int.fract]

/-- Characterisation of the AttackRelease `phase[0]` update of one sample,
for output modes that do not touch `phase[0]` after the ramp stage. -/
theorem stepAR_char (om : OutputMode) (inp : SampleIn) (d : DTC)
    (hom : om ≠ .Frequency) :
    (inp.trig = none →
      (stepSample .AR om inp d).dtc.phase0 = wrapPhase (d.phase0 + inp.phaseInc)) ∧
    (∀ lvl : ℚ, inp.trig = some lvl → 1 < lvl →
      (stepSample .AR om inp d).dtc.phase0 =
        min (d.phase0 + inp.phaseInc / clamp (effSlope inp d) (1/100) (99/100)) (1/2)) ∧
    (∀ lvl : ℚ, inp.trig = some lvl → ¬(1 < lvl) →
      (stepSample .AR om inp d).dtc.phase0 =
        min (d.phase0 + inp.phaseInc / clamp (1 - effSlope inp d) (1/100) (99/100)) 1) ∧
    (∀ lvl : ℚ, inp.trig = some lvl → 1 < lvl → 0 < inp.phaseInc → d.phase0 = 1/2 →
      (stepSample .AR om inp d).dtc.phase0 = 1/2) ∧
    (∀ lvl : ℚ, inp.trig = some lvl → ¬(1 < lvl) → 0 < inp.phaseInc → d.phase0 = 1 →
      (stepSample .AR om inp d).dtc.phase0 = 1) := by
  rw [stepSample_phase0 .AR om inp d hom]
  have hstep : (phase0Run .AR inp d).1 =
      updatePhaseAR inp.trig.isSome (gateOf inp) inp.phaseInc (effSlope inp d) d.phase0 := rfl
  rw [hstep]
  have hclampS := clamp_mem (effSlope inp d) (show (1:ℚ)/100 ≤ 99/100 by norm_num)
  have hclampR := clamp_mem (1 - effSlope inp d) (show (1:ℚ)/100 ≤ 99/100 by norm_num)
  refine ⟨?_, ?_, ?_, ?_, ?_⟩
  · intro ht
    have h1 : inp.trig.isSome = false := by rw [ht]; rfl
    rw [h1, updatePhaseAR_noTrig]
  · intro lvl ht hlvl
    have h1 : inp.trig.isSome = true := by rw [ht]; rfl
    have h2 : gateOf inp = true := by
      unfold gateOf
      rw [ht]
      exact decide_eq_true hlvl
    rw [h1, h2, updatePhaseAR_gateHigh, ite_gt_min]
  · intro lvl ht hlvl
    have h1 : inp.trig.isSome = true := by rw [ht]; rfl
    have h2 : gateOf inp = false := by
      unfold gateOf
      rw [ht]
      exact decide_eq_false hlvl
    rw [h1, h2, updatePhaseAR_gateLow, ite_gt_min]
  · intro lvl ht hlvl hinc hp
    have h1 : inp.trig.isSome = true := by rw [ht]; rfl
    have h2 : gateOf inp = true := by
      unfold gateOf
      rw [ht]
      exact decide_eq_true hlvl
    have has : 0 < inp.phaseInc / clamp (effSlope inp d) (1/100) (99/100) :=
      div_pos hinc (by linarith [hclampS.1])
    rw [h1, h2, updatePhaseAR_gateHigh, ite_gt_min, hp]
    exact min_eq_right (by linarith)
  · intro lvl ht hlvl hinc hp
    have h1 : inp.trig.isSome = true := by rw [ht]; rfl
    have h2 : gateOf inp = false := by
      unfold gateOf
      rw [ht]
      exact decide_eq_false hlvl
    have has : 0 < inp.phaseInc / clamp (1 - effSlope inp d) (1/100) (99/100) :=
      div_pos hinc (by linarith [hclampR.1])
    rw [h1, h2, updatePhaseAR_gateLow, ite_gt_min, hp]
    exact min_eq_right (by linarith)

/-- C3 (amended): in AttackRelease ramp mode (in output modes other than
Frequency, whose frequency stage advances `phase[0]` further), with a
connected trigger input: while the gate is high `phase[0]` moves to
`min(phase0 + increment / clamp(slope, 0.01, 0.99), 0.5)`, while the gate
is low it moves to `min(phase0 + increment / clamp(1−slope, 0.01, 0.99), 1)`,
never wrapping and holding at 0.5 or 1.0; but with no trigger input
connected the phase instead free-runs like Cycle mode, advancing by the
plain increment and wrapping modulo 1. -/
theorem C3_ar_phase_update (om : OutputMode) (inp : SampleIn) (d : DTC)
    (hom : om ≠ .Frequency) :
    (inp.trig = none →
      (stepSample .AR om inp d).dtc.phase0 = wrapPhase (d.phase0 + inp.phaseInc)) ∧
    (∀ lvl : ℚ, inp.trig = some lvl → 1 < lvl →
      (stepSample .AR om inp d).dtc.phase0 =
        min (d.phase0 + inp.phaseInc / clamp (effSlope inp d) (1/100) (99/100)) (1/2)) ∧
    (∀ lvl : ℚ, inp.trig = some lvl → ¬(1 < lvl) →
      (stepSample .AR om inp d).dtc.phase0 =
        min (d.phase0 + inp.phaseInc / clamp (1 - effSlope inp d) (1/100) (99/100)) 1) ∧
    (∀ lvl : ℚ, inp.trig = some lvl → 1 < lvl → 0 < inp.phaseInc → d.phase0 = 1/2 →
      (stepSample .AR om inp d).dtc.phase0 = 1/2) ∧
    (∀ lvl : ℚ, inp.trig = some lvl → ¬(1 < lvl) → 0 < inp.phaseInc → d.phase0 = 1 →
      (stepSample .AR om inp d).dtc.phase0 = 1) :=
  stepAR_char om inp d hom

theorem C3_ar_phase_update_witness :
    (stepSample .AR .Gates (inTrig 2 (1/100)) (stPh (1/2))).dtc.phase0 = 1/2 :=
  (C3_ar_phase_update .Gates (inTrig 2 (1/100)) (stPh (1/2))
    (fun h => nomatch h)).2.2.2.1 2 rfl (by norm_num) (by norm_num [inTrig, baseIn]) rfl

/-- C4 counterexample: AttackRelease mode, trigger connected and gate
re-asserted while `phase[0] = 0.8` (the gate had been released at the apex
and the release had progressed), slope 1/2, increment 1/1000.  The gate-high
clamp snaps the phase down to 0.5 in a single sample, so the derived ramp
jumps from 0.4 to 1.0 — a discontinuity of 3/5, far larger than one sample
step of the ramp (2 × attackSpeed = 1/250). -/
theorem C4_counterexample :
    (stepSample .AR .Gates (inTrig 2 (1/1000)) (stPh (8/10))).dtc.phase0 = 1/2 ∧
    arRamp (8/10) = 2/5 ∧ arRamp (1/2) = 1 ∧
    arRamp (1/2) - arRamp (8/10) = 3/5 ∧
    ((3/5 : ℚ) >
      2 * ((1/1000) / clamp (effSlope (inTrig 2 (1/1000)) (stPh (8/10))) (1/100) (99/100))) := by
  have heff : effSlope (inTrig 2 (1/1000)) (stPh (8/10)) = 1/2 := by
    norm_num [effSlope, modulated, smoothParam, smoothCoeff, inTrig, baseIn, stPh, construct0]
  refine ⟨?_, by norm_num [arRamp], by norm_num [arRamp], by norm_num [arRamp], ?_⟩
  · rw [stepSample_phase0 .AR .Gates _ _ (fun h => nomatch h)]
    show updatePhaseAR true (gateOf (inTrig 2 (1/1000))) (1/1000)
      (effSlope (inTrig 2 (1/1000)) (stPh (8/10))) (8/10) = 1/2
    have hg : gateOf (inTrig 2 (1/1000)) = true := by
      norm_num [gateOf, inTrig, baseIn]
    rw [hg, updatePhaseAR_gateHigh, heff]
    norm_num [clamp]
  · rw [heff]
    norm_num [clamp]

/-- C4 (amended): in AttackRelease mode with a connected trigger (output
modes other than Frequency): the phase never exceeds 0.5 at the end of a
gate-high sample and never exceeds 1.0 at the end of a gate-low sample; but
when the gate is re-asserted while the phase is in (0.5, 1], the phase is
clamped down to 0.5 within that single sample and the derived ramp jumps by
`2·phase0 − 1` (from `2 − 2·phase0` up to 1), a discontinuity that is not
bounded by one sample step of the ramp. -/
theorem C4_ar_ramp_jump (om : OutputMode) (inp : SampleIn) (d : DTC)
    (hom : om ≠ .Frequency) :
    (∀ lvl : ℚ, inp.trig = some lvl → 1 < lvl →
      (stepSample .AR om inp d).dtc.phase0 ≤ 1/2) ∧
    (∀ lvl : ℚ, inp.trig = some lvl → ¬(1 < lvl) →
      (stepSample .AR om inp d).dtc.phase0 ≤ 1) ∧
    (∀ lvl : ℚ, inp.trig = some lvl → 1 < lvl → 0 < inp.phaseInc → 1/2 < d.phase0 →
      (stepSample .AR om inp d).dtc.phase0 = 1/2 ∧
      arRamp ((stepSample .AR om inp d).dtc.phase0) - arRamp d.phase0 = 2 * d.phase0 - 1) := by
  obtain ⟨hnone, hhigh, hlow, hhold, hend⟩ := stepAR_char om inp d hom
  have hclampS := clamp_mem (effSlope inp d) (show (1:ℚ)/100 ≤ 99/100 by norm_num)
  refine ⟨?_, ?_, ?_⟩
  · intro lvl ht hlvl
    rw [hhigh lvl ht hlvl]
    exact min_le_right _ _
  · intro lvl ht hlvl
    rw [hlow lvl ht hlvl]
    exact min_le_right _ _
  · intro lvl ht hlvl hinc hp
    have has : 0 < inp.phaseInc / clamp (effSlope inp d) (1/100) (99/100) :=
      div_pos hinc (by linarith [hclampS.1])
    have hmin : (stepSample .AR om inp d).dtc.phase0 = 1/2 := by
      rw [hhigh lvl ht hlvl]
      exact min_eq_right (by linarith)
    refine ⟨hmin, ?_⟩
    rw [hmin]
    have hra : arRamp (1/2) = 1 := by norm_num [arRamp]
    have hrb : arRamp d.phase0 = 1 - (d.phase0 - 1/2) * 2 := by
      unfold arRamp
      rw [if_neg (not_le.mpr hp)]
    rw [hra, hrb]
    ring

theorem C4_ar_ramp_jump_witness :
    (stepSample .AR .Gates (inTrig 2 (1/1000)) (stPh (8/10))).dtc.phase0 = 1/2 ∧
    arRamp ((stepSample .AR .Gates (inTrig 2 (1/1000)) (stPh (8/10))).dtc.phase0) -
      arRamp ((stPh (8/10)).phase0) = 2 * (stPh (8/10)).phase0 - 1 :=
  (C4_ar_ramp_jump .Gates (inTrig 2 (1/1000)) (stPh (8/10))
    (fun h => nomatch h)).2.2 2 rfl (by norm_num) (by norm_num [inTrig, baseIn])
    (by norm_num [stPh, construct0])

theorem stepAD_idle (om : OutputMode) (hom : om ≠ .Frequency) (inp : SampleIn) (d : DTC)
    (hrise : risingOf inp d = false) (he : d.envelopeRunning = false) :
    (stepSample .AD om inp d).dtc.phase0 = d.phase0 ∧
    (stepSample .AD om inp d).dtc.envelopeRunning = false := by
  rw [stepSample_phase0 .AD om inp d hom, stepSample_env .AD om inp d]
  have hpr : phase0Run .AD inp d =
      updatePhaseAD (risingOf inp d) inp.phaseInc d.phase0 d.envelopeRunning := rfl
  rw [hpr, hrise, he, updatePhaseAD_false_false]
  exact ⟨rfl, rfl⟩

/-- C7 counterexample: AttackDecay ramp mode with Frequency output mode, no
trigger connected (hence no rising edge) and `envelopeRunning = false` at
phase 3/10.  The claim says the phase holds at its last value until the next
rising edge, but the frequency stage advances `phase[0]` to 31/100 anyway. -/
theorem C7_counterexample :
    (stepSample .AD .Frequency baseIn (stPh (3/10))).dtc.envelopeRunning = false ∧
    (stepSample .AD .Frequency baseIn (stPh (3/10))).dtc.phase0 = 31/100 ∧
    ((31/100 : ℚ) ≠ 3/10) := by
  have heff : effShift baseIn (stPh (3/10)) = 1/2 := by
    norm_num [effShift, modulated, smoothParam, smoothCoeff, baseIn, stPh, construct0]
  refine ⟨rfl, ?_, by norm_num⟩
  rw [stepSample_phase0_freq]
  norm_num [freqPhaseCh, freqChannelPhase, risingOf, gateOf, baseIn, stPh, construct0, heff,
    ratioSetOf, truncz, intClamp, ratioAt, phase0Run, updatePhaseAD, wrapPhase]

/-- C7 (amended): in AttackDecay ramp mode, in output modes other than
Frequency (whose frequency stage moves `phase[0]` every sample regardless of
`envelopeRunning`): a rising edge restarts the envelope from phase 0 with
`envelopeRunning` set; while running and without a rising edge the phase
advances by the increment until it reaches or exceeds 1.0, where it is
clamped to 1.0 and `envelopeRunning` is cleared; while not running and
without a rising edge the phase holds and `envelopeRunning` stays false, and
over any sample sequence with the gate low the state (phase0,
envelopeRunning=false) is preserved — no re-trigger. -/
theorem C7_ad_one_shot (om : OutputMode) (hom : om ≠ .Frequency) :
    (∀ (inp : SampleIn) (d : DTC), risingOf inp d = true →
      (if 1 ≤ inp.phaseInc
        then (stepSample .AD om inp d).dtc.phase0 = 1 ∧
          (stepSample .AD om inp d).dtc.envelopeRunning = false
        else (stepSample .AD om inp d).dtc.phase0 = inp.phaseInc ∧
          (stepSample .AD om inp d).dtc.envelopeRunning = true)) ∧
    (∀ (inp : SampleIn) (d : DTC), risingOf inp d = false → d.envelopeRunning = true →
      (if 1 ≤ d.phase0 + inp.phaseInc
        then (stepSample .AD om inp d).dtc.phase0 = 1 ∧
          (stepSample .AD om inp d).dtc.envelopeRunning = false
        else (stepSample .AD om inp d).dtc.phase0 = d.phase0 + inp.phaseInc ∧
          (stepSample .AD om inp d).dtc.envelopeRunning = true)) ∧
    (∀ (inp : SampleIn) (d : DTC), risingOf inp d = false → d.envelopeRunning = false →
      (stepSample .AD om inp d).dtc.phase0 = d.phase0 ∧
      (stepSample .AD om inp d).dtc.envelopeRunning = false) ∧
    (∀ (l : List SampleIn) (d : DTC), (∀ inp ∈ l, gateOf inp = false) →
      d.envelopeRunning = false →
      (stepTrace .AD om l d).phase0 = d.phase0 ∧
      (stepTrace .AD om l d).envelopeRunning = false) := by
  refine ⟨?_, ?_, stepAD_idle om hom, ?_⟩
  · intro inp d hrise
    rw [stepSample_phase0 .AD om inp d hom, stepSample_env .AD om inp d]
    have hpr : phase0Run .AD inp d =
        updatePhaseAD (risingOf inp d) inp.phaseInc d.phase0 d.envelopeRunning := rfl
    rw [hpr, hrise, updatePhaseAD_advance true d.envelopeRunning (Or.inl rfl)]
    have hz : (if (true : Bool) = true then (0:ℚ) else d.phase0) = 0 := rfl
    rw [hz, zero_add]
    by_cases h : (1:ℚ) ≤ inp.phaseInc
    · rw [if_pos h, if_pos (show inp.phaseInc ≥ 1 from h)]
      exact ⟨rfl, rfl⟩
    · rw [if_neg h, if_neg (show ¬inp.phaseInc ≥ 1 from h)]
      exact ⟨rfl, rfl⟩
  · intro inp d hrise hrun
    rw [stepSample_phase0 .AD om inp d hom, stepSample_env .AD om inp d]
    have hpr : phase0Run .AD inp d =
        updatePhaseAD (risingOf inp d) inp.phaseInc d.phase0 d.envelopeRunning := rfl
    rw [hpr, hrise, hrun, updatePhaseAD_advance false true (Or.inr rfl)]
    have hz : (if (false : Bool) = true then (0:ℚ) else d.phase0) = d.phase0 := rfl
    rw [hz]
    by_cases h : (1:ℚ) ≤ d.phase0 + inp.phaseInc
    · rw [if_pos h, if_pos (show d.phase0 + inp.phaseInc ≥ 1 from h)]
      exact ⟨rfl, rfl⟩
    · rw [if_neg h, if_neg (show ¬d.phase0 + inp.phaseInc ≥ 1 from h)]
      exact ⟨rfl, rfl⟩
  · intro l
    induction l with
    | nil => exact fun d _ he => ⟨rfl, he⟩
    | cons inp l ih =>
        intro d hg he
        rw [stepTrace_cons]
        have hgi : gateOf inp = false := hg inp (List.mem_cons_self _ _)
        have hrise : risingOf inp d = false := by
          unfold risingOf
          rw [hgi, Bool.false_and]
        obtain ⟨ha, hb⟩ := stepAD_idle om hom inp d hrise he
        obtain ⟨hc, hd⟩ := ih ((stepSample .AD om inp d).dtc)
          (fun i hi => hg i (List.mem_cons_of_mem _ hi)) hb
        exact ⟨by rw [hc, ha], hd⟩

theorem C7_ad_one_shot_witness :
    (stepSample .AD .Gates baseIn (stPh (3/10))).dtc.phase0 = (stPh (3/10)).phase0 ∧
    (stepSample .AD .Gates baseIn (stPh (3/10))).dtc.envelopeRunning = false :=
  (C7_ad_one_shot .Gates (fun h => nomatch h)).2.2.1 baseIn (stPh (3/10)) rfl rfl

theorem phase0Run_mem (rm : RampMode) (inp : SampleIn) (d : DTC)
    (hp0 : 0 ≤ d.phase0) (hp1 : d.phase0 ≤ 1) (hinc : 0 < inp.phaseInc) :
    0 ≤ (phase0Run rm inp d).1 ∧ (phase0Run rm inp d).1 ≤ 1 := by
  cases rm
  · exact updatePhaseAD_mem _ _ hp0 hp1 hinc.le
  · have h := updatePhaseCycle_mem (risingOf inp d) hp0 hinc.le
    exact ⟨h.1, h.2.le⟩
  · exact updatePhaseAR_mem _ _ hp0 hp1 hinc

/-- C5: from any state satisfying the invariant, one per-sample step in any
ramp/output mode keeps all four phases in [0,1] and (given knob targets in
[0,1]) keeps the four smoothed parameters in [0,1]; in AttackDecay mode
`envelopeRunning` is false whenever `phase[0]` is exactly 1 at the end of
the step; and the initial state satisfies the invariant, so every reachable
state does. -/
theorem C5_state_invariants (rm : RampMode) (om : OutputMode) (inp : SampleIn) (d : DTC)
    (hI : InvS d) (hinc : 0 < inp.phaseInc)
    (hts1 : 0 ≤ inp.targetShape) (hts2 : inp.targetShape ≤ 1)
    (htl1 : 0 ≤ inp.targetSlope) (htl2 : inp.targetSlope ≤ 1)
    (htm1 : 0 ≤ inp.targetSmoothness) (htm2 : inp.targetSmoothness ≤ 1)
    (hth1 : 0 ≤ inp.targetShift) (hth2 : inp.targetShift ≤ 1) :
    InvS (stepSample rm om inp d).dtc ∧
    (rm = .AD → (stepSample rm om inp d).dtc.phase0 = 1 →
      (stepSample rm om inp d).dtc.envelopeRunning = false) ∧
    InvS construct0 := by
  obtain ⟨⟨hp00, hp01⟩, ⟨hp10, hp11⟩, ⟨hp20, hp21⟩, ⟨hp30, hp31⟩,
    ⟨hs10, hs11⟩, ⟨hs20, hs21⟩, ⟨hs30, hs31⟩, ⟨hs40, hs41⟩⟩ := hI
  have hrun := phase0Run_mem rm inp d hp00 hp01 hinc
  obtain ⟨e1, e2, e3, e4⟩ := stepSample_smooth rm om inp d
  have hsm1 := smoothParam_mem hs10 hs11 hts1 hts2
  have hsm2 := smoothParam_mem hs20 hs21 htl1 htl2
  have hsm3 := smoothParam_mem hs30 hs31 htm1 htm2
  have hsm4 := smoothParam_mem hs40 hs41 hth1 hth2
  have hc0 : InvS construct0 := by norm_num [InvS, construct0]
  by_cases hom : om = .Frequency
  · subst hom
    obtain ⟨f1, f2, f3⟩ := stepSample_phase123_freq rm inp d
    have hq0 : 0 ≤ freqPhaseCh rm inp d 0 ∧ freqPhaseCh rm inp d 0 < 1 :=
      freqChannelPhase_mem (risingOf inp d) hrun.1 hinc.le (ratioAt_nonneg _ _)
    have hq1 : 0 ≤ freqPhaseCh rm inp d 1 ∧ freqPhaseCh rm inp d 1 < 1 :=
      freqChannelPhase_mem (risingOf inp d) hp10 hinc.le (ratioAt_nonneg _ _)
    have hq2 : 0 ≤ freqPhaseCh rm inp d 2 ∧ freqPhaseCh rm inp d 2 < 1 :=
      freqChannelPhase_mem (risingOf inp d) hp20 hinc.le (ratioAt_nonneg _ _)
    have hq3 : 0 ≤ freqPhaseCh rm inp d 3 ∧ freqPhaseCh rm inp d 3 < 1 :=
      freqChannelPhase_mem (risingOf inp d) hp30 hinc.le (ratioAt_nonneg _ _)
    refine ⟨?_, ?_, hc0⟩
    · unfold InvS
      rw [stepSample_phase0_freq, f1, f2, f3, e1, e2, e3, e4]
      exact ⟨⟨hq0.1, hq0.2.le⟩, ⟨hq1.1, hq1.2.le⟩, ⟨hq2.1, hq2.2.le⟩, ⟨hq3.1, hq3.2.le⟩,
        hsm1, hsm2, hsm3, hsm4⟩
    · intro _ h1
      rw [stepSample_phase0_freq] at h1
      exact absurd h1 (ne_of_lt hq0.2)
  · obtain ⟨g1, g2, g3⟩ := stepSample_phase123 rm om inp d hom
    refine ⟨?_, ?_, hc0⟩
    · unfold InvS
      rw [stepSample_phase0 rm om inp d hom, g1, g2, g3, e1, e2, e3, e4]
      exact ⟨hrun, ⟨hp10, hp11⟩, ⟨hp20, hp21⟩, ⟨hp30, hp31⟩, hsm1, hsm2, hsm3, hsm4⟩
    · intro hrm h1
      subst hrm
      rw [stepSample_phase0 .AD om inp d hom] at h1
      rw [stepSample_env .AD om inp d]
      cases hb : (phase0Run .AD inp d).2 with
      | false => rfl
      | true =>
          have hlt := updatePhaseAD_run_lt (risingOf inp d) d.envelopeRunning hb
          exact absurd h1 (ne_of_lt hlt)

theorem C5_state_invariants_witness :
    InvS (stepSample .Cycle .Gates baseIn construct0).dtc :=
  (C5_state_invariants .Cycle .Gates baseIn construct0 (by norm_num [InvS, construct0])
    (by norm_num [baseIn]) (by norm_num [baseIn]) (by norm_num [baseIn])
    (by norm_num [baseIn]) (by norm_num [baseIn]) (by norm_num [baseIn])
    (by norm_num [baseIn]) (by norm_num [baseIn]) (by norm_num [baseIn])).1
